import Mathlib

/-!
Verification of the UDP streaming protocol engine of this repository.

The definitions below are shallow embeddings of the Python sources:
* `src/assignments/udp_streaming/streaming_server.py` (`UDPStreamingServer`)
* `src/assignments/udp_streaming/streaming_client.py` (`UDPStreamingClient`)
* `src/assignments/udp_streaming/advanced_video_server.py`
  (`AdvancedUDPVideoServer`, `NetworkMonitor`)
* `src/udp_streaming/advanced_video_client.py`
  (`AdvancedUDPVideoClient`, `VideoBuffer`)

Bytes are modelled as natural numbers, byte strings as `List Nat`,
Python `dict`s as association lists whose keys stay unique
(insertion replaces an existing key, exactly like a `dict`), and
Python floats (the timestamps of `NetworkMonitor`) as rationals.
`while` loops are modelled with an explicit fuel argument that is
always instantiated with a provably sufficient value.
-/

namespace UdpStreaming

/-! ## Big-endian byte packing (Python `struct`, format characters B / I / Q) -/

/-- Big-endian encoding of `v % 256 ^ n` on exactly `n` bytes,
mirroring `struct.pack` with `!` byte order. -/
def toBytesBE : Nat → Nat → List Nat
  | 0, _ => []
  | n + 1, v => toBytesBE n (v / 256) ++ [v % 256]

/-- Big-endian decoding, mirroring `struct.unpack` with `!` byte order. -/
def fromBytesBE (l : List Nat) : Nat :=
  l.foldl (fun a b => a * 256 + b) 0

/-! ## PacketCodec, advanced pair
(`AdvancedUDPVideoServer.create_packet` / `AdvancedUDPVideoClient.parse_packet`) -/

/-- A parsed packet as produced by `AdvancedUDPVideoClient.parse_packet`. -/
structure ParsedPacket where
  ptype : Nat
  seq : Nat
  data_size : Nat
  bytes_sent : Nat
  total_size : Nat
  data : List Nat
  deriving DecidableEq, Repr

/-- `AdvancedUDPVideoServer.create_packet`: 25-byte header
`[TYPE:1][SEQ:4][DATA_SIZE:4][BYTES_SENT:8][TOTAL_SIZE:8]` followed by the payload.
`ptype` is the ASCII value of the type character (68 = D, 69 = E, 73 = I, 88 = X). -/
def create_packet (ptype seq : Nat) (data : List Nat) (total_size bytes_sent : Nat) :
    List Nat :=
  [ptype % 256] ++ toBytesBE 4 seq ++ toBytesBE 4 data.length ++
    toBytesBE 8 bytes_sent ++ toBytesBE 8 total_size ++ data

/-- `AdvancedUDPVideoClient.parse_packet`: rejects datagrams shorter than the
25-byte header, otherwise slices the header fields and takes
`packet[25:25+data_size]` as payload. A first byte ≥ 128 makes
`packet[0:1].decode('ascii')` raise, which the surrounding `except` turns
into `None`. -/
def parse_packet (packet : List Nat) : Option ParsedPacket :=
  if packet.length < 25 then none
  else if 128 ≤ packet.headI then none
  else
    let data_size := fromBytesBE ((packet.drop 5).take 4)
    some
      { ptype := packet.headI
        seq := fromBytesBE ((packet.drop 1).take 4)
        data_size := data_size
        bytes_sent := fromBytesBE ((packet.drop 9).take 8)
        total_size := fromBytesBE ((packet.drop 17).take 8)
        data := (packet.drop 25).take data_size }

/-! ## PacketCodec, basic pair
(`UDPStreamingServer.create_data_packet` / `UDPStreamingClient.parse_data_packet`) -/

/-- Result of `UDPStreamingClient.parse_data_packet`. -/
inductive ParsedData where
  | data (seq data_size bytes_sent total_size : Nat) (payload : List Nat)
  | endOfStream (seq : Nat)
  | unknown
  | invalid
  deriving DecidableEq, Repr

/-- `UDPStreamingServer.create_data_packet`: `struct.pack('!BII QQ', ...)`, a
25-byte header, followed by the chunk. -/
def create_data_packet (seq : Nat) (data : List Nat) (bytes_sent total_size : Nat) :
    List Nat :=
  [68] ++ toBytesBE 4 seq ++ toBytesBE 4 data.length ++
    toBytesBE 8 bytes_sent ++ toBytesBE 8 total_size ++ data

/-- `UDPStreamingServer.create_end_packet`. -/
def create_end_packet (seq : Nat) : List Nat :=
  [69] ++ toBytesBE 4 seq ++ toBytesBE 4 0 ++ toBytesBE 8 0 ++ toBytesBE 8 0

/-- `struct.unpack('!BII QQ', buf)`: succeeds only when `buf` is exactly
`struct.calcsize('!BIIQQ') = 1+4+4+8+8 = 25` bytes long, otherwise raises
`struct.error`. -/
def unpackBIIQQ (buf : List Nat) : Option (Nat × Nat × Nat × Nat × Nat) :=
  if buf.length = 25 then
    some (buf.headI, fromBytesBE ((buf.drop 1).take 4),
      fromBytesBE ((buf.drop 5).take 4),
      fromBytesBE ((buf.drop 9).take 8),
      fromBytesBE ((buf.drop 17).take 8))
  else none

/-- `UDPStreamingClient.parse_data_packet`: checks `len(data) < 21`, then calls
`struct.unpack('!BII QQ', data[:21])` — a 25-byte format applied to a 21-byte
slice. The raised `struct.error` is caught by the surrounding `except`, which
returns `{'type': 'INVALID'}`. -/
def parse_data_packet (d : List Nat) : ParsedData :=
  if d.length < 21 then .invalid
  else
    match unpackBIIQQ (d.take 21) with
    | none => .invalid
    | some (t, seq, size, bs, ts) =>
      if t = 68 then .data seq size bs ts ((d.drop 21).take size)
      else if t = 69 then .endOfStream seq
      else .unknown

/-! ## Python `dict` operations, as insertion-ordered association lists -/

/-- `d[k] = v` on a Python dict: replace the value of an existing key in
place, otherwise append the new binding. Keys stay unique. -/
def insertD : List (Nat × List Nat) → Nat → List Nat → List (Nat × List Nat)
  | [], k, v => [(k, v)]
  | (k', v') :: t, k, v =>
    if k' = k then (k, v) :: t else (k', v') :: insertD t k v

/-- `d.pop(k)` on a Python dict: the value bound to `k` together with the
dict minus that binding, or `none` when `k not in d`. -/
def popD : List (Nat × List Nat) → Nat → Option (List Nat × List (Nat × List Nat))
  | [], _ => none
  | (k', v') :: t, k =>
    if k' = k then some (v', t)
    else
      match popD t k with
      | none => none
      | some (v, r) => some (v, (k', v') :: r)

/-! ## The reassembly drain loop

Both receivers run the same loop after storing a packet:
`while next_expected in store: write store.pop(next_expected); next_expected += 1`.
Each iteration removes one binding, so the store's size bounds the number of
iterations; the loop is embedded with that size as fuel. -/

/-- One drain loop: returns the final expected sequence, the remaining store,
and `acc` extended with the payloads written, in write order. -/
def drainAux : Nat → Nat → List (Nat × List Nat) → List Nat →
    Nat × List (Nat × List Nat) × List Nat
  | 0, e, buf, acc => (e, buf, acc)
  | fuel + 1, e, buf, acc =>
    match popD buf e with
    | none => (e, buf, acc)
    | some (d, rest) => drainAux fuel (e + 1) rest (acc ++ d)

/-! ## StreamReceiver, basic client (`UDPStreamingClient`) -/

/-- The per-stream receiver state of `UDPStreamingClient` (the fields reset by
`request_media_file`), together with `output`, the bytes written to the buffer
file, and `emissions`, the number of times `launch_media_player` actually
launched a player. -/
structure ClientState where
  sequence_expected : Nat
  packets_buffer : List (Nat × List Nat)
  received_bytes : Nat
  packets_received : Nat
  media_player_launched : Bool
  expected_size : Nat
  emissions : Nat
  output : List Nat
  deriving DecidableEq, Repr

/-- State right after `request_media_file` reset the stream state and the INFO
message set `expected_size` (0 when the INFO datagram was lost). -/
def initClientState (expected_size : Nat) : ClientState :=
  { sequence_expected := 0, packets_buffer := [], received_bytes := 0,
    packets_received := 0, media_player_launched := false,
    expected_size := expected_size, emissions := 0, output := [] }

/-- `UDPStreamingClient.launch_media_player`: returns immediately when already
launched, otherwise sets the flag and launches the player. -/
def launch_media_player (st : ClientState) : ClientState :=
  if st.media_player_launched then st
  else { st with media_player_launched := true, emissions := st.emissions + 1 }

/-- Lines 249–272 of `UDPStreamingClient.handle_data_packet`: the expected
packet is written at once (`output ++ data`, `received_bytes += len(data)`,
`sequence_expected += 1`) and the drain loop then pops and writes the
consecutive buffered run; the two writes are flattened into one record
update here. An unexpected packet is stored in `packets_buffer`. -/
def store_data_packet (st : ClientState) (seq : Nat) (data : List Nat) :
    ClientState :=
  if seq = st.sequence_expected then
    let r := drainAux st.packets_buffer.length (st.sequence_expected + 1)
      st.packets_buffer []
    { st with
      output := st.output ++ data ++ r.2.2,
      received_bytes := st.received_bytes + data.length + r.2.2.length,
      packets_received := st.packets_received + 1,
      sequence_expected := r.1,
      packets_buffer := r.2.1 }
  else
    { st with
      packets_buffer := insertD st.packets_buffer seq data,
      packets_received := st.packets_received + 1 }

/-- Lines 274–278 of `UDPStreamingClient.handle_data_packet`: launch the
media player once enough contiguous bytes arrived, with
`playback_threshold = 50000` (set in `__init__`). -/
def check_playback_launch (st : ClientState) : ClientState :=
  if !st.media_player_launched ∧ 50000 ≤ st.received_bytes ∧ 0 < st.expected_size
  then launch_media_player st
  else st

/-- `UDPStreamingClient.handle_data_packet`. -/
def handle_data_packet (st : ClientState) (seq : Nat) (data : List Nat) :
    ClientState :=
  check_playback_launch (store_data_packet st seq data)

/-- Feed a list of parsed DATA packets `(sequence, payload)` to the basic
client, in arrival order. -/
def runClient (st : ClientState) (ps : List (Nat × List Nat)) : ClientState :=
  ps.foldl (fun s p => handle_data_packet s p.1 p.2) st

/-! ## StreamReceiver, advanced client (`VideoBuffer` and the packet loop of
`AdvancedUDPVideoClient._receive_stream`) -/

/-- The state of a `VideoBuffer`. `has_file` models whether `file_handle` is
set (`add_packet` writes only `if self.file_handle:`); `output` is the content
of the buffer file. -/
structure VB where
  packets : List (Nat × List Nat)
  next_expected_seq : Nat
  total_size : Nat
  bytes_received : Nat
  has_file : Bool
  output : List Nat
  deriving DecidableEq, Repr

/-- `VideoBuffer.__init__`. -/
def vbInit : VB :=
  { packets := [], next_expected_seq := 1, total_size := 0, bytes_received := 0,
    has_file := false, output := [] }

/-- `VideoBuffer.initialize_file`: records the total size and opens the buffer
file with mode `'wb'`, which truncates it. -/
def initialize_file (vb : VB) (total_size : Nat) : VB :=
  { vb with total_size := total_size, has_file := true, output := [] }

/-- `VideoBuffer.add_packet`: drops packets with `seq_num < next_expected_seq`,
stores the rest and drains the consecutive run; returns the boolean
`bytes_received >= playback_threshold and bytes_received < playback_threshold
+ 50000` with `playback_threshold = 102400`. -/
def add_packet (vb : VB) (seq : Nat) (data : List Nat) : VB × Bool :=
  let vb' :=
    if vb.next_expected_seq ≤ seq then
      let buf := insertD vb.packets seq data
      let r := drainAux buf.length vb.next_expected_seq buf []
      { vb with
        packets := r.2.1,
        next_expected_seq := r.1,
        output := if vb.has_file then vb.output ++ r.2.2 else vb.output,
        bytes_received := vb.bytes_received + r.2.2.length }
    else vb
  (vb', decide (102400 ≤ vb'.bytes_received ∧ vb'.bytes_received < 102400 + 50000))

/-- Feed a list of DATA packets `(sequence, payload)` to a `VideoBuffer`, in
arrival order, discarding the returned booleans. -/
def runVB (vb : VB) (ps : List (Nat × List Nat)) : VB :=
  ps.foldl (fun v p => (add_packet v p.1 p.2).1) vb

/-- A datagram as classified by the one-character type byte that
`AdvancedUDPVideoClient.parse_packet` returns (`packet[0:1].decode('ascii')`;
the server's `create_packet` truncates the type string to its first byte).
`info` is a datagram with type byte `'I'` (produced by
`create_packet('INFO', ...)`, carrying the size in its JSON payload), `dat`
has type byte `'D'`, `endOfStream` type byte `'E'`, and `errorMsg` stands for
any other type byte. -/
inductive RecvPacket where
  | info (size : Nat)
  | dat (seq : Nat) (payload : List Nat)
  | endOfStream
  | errorMsg
  deriving DecidableEq, Repr

/-- The state of `AdvancedUDPVideoClient._receive_stream`: the buffer, the
two local flags, and the `NetworkStats` counters touched by the loop.
`emissions` counts successful media-player launches. -/
structure AdvClientState where
  buffer : VB
  file_initialized : Bool
  media_player_launched : Bool
  emissions : Nat
  stats_packets : Nat
  stats_bytes : Nat
  streaming : Bool
  deriving DecidableEq, Repr

/-- State at the top of `_receive_stream`. -/
def advInit : AdvClientState :=
  { buffer := vbInit, file_initialized := false, media_player_launched := false,
    emissions := 0, stats_packets := 0, stats_bytes := 0, streaming := true }

/-- One iteration of the packet loop of `_receive_stream`. The dispatch
compares the one-character parsed type against the string literals of the
source: `packet_type == 'INFO'` can never succeed (the parsed type is the
single byte `'I'`), so an INFO datagram matches no branch and is discarded —
the branch body that would call `initialize_file` and set `file_initialized`
is dead code. A DATA packet is handed to the buffer only when
`file_initialized` is already set (`packet_type == 'D' and file_initialized`);
the media player is launched when `add_packet` says so and it was not
launched before (`launch_player` is external and modelled as succeeding). A
type byte `'E'` takes the end branch and stops the loop. The comparison
`packet_type == 'ERROR'` is dead for the same reason as `'INFO'` (a server
error packet arrives with first byte `'E'` and takes the `'E'` branch);
`errorMsg`, a datagram whose type byte matches no branch, is discarded. -/
def recvStep (st : AdvClientState) (p : RecvPacket) : AdvClientState :=
  if !st.streaming then st
  else
    match p with
    | .info _ => st
    | .dat seq payload =>
      if st.file_initialized then
        let r := add_packet st.buffer seq payload
        let st1 := { st with
          buffer := r.1,
          stats_packets := st.stats_packets + 1,
          stats_bytes := st.stats_bytes + payload.length }
        if r.2 ∧ !st1.media_player_launched then
          { st1 with media_player_launched := true, emissions := st1.emissions + 1 }
        else st1
      else st
    | .endOfStream => { st with streaming := false }
    | .errorMsg => st

/-- The packet loop of `_receive_stream` over a list of arriving datagrams. -/
def recvRun (st : AdvClientState) (ps : List RecvPacket) : AdvClientState :=
  ps.foldl recvStep st

/-! ## NetworkMonitor (`advanced_video_server.py`)

`packet_times` entries are `(time.time(), packet_size, send_time)`; the
estimator reads only the first two components, so samples are modelled as
`(timestamp, size)` pairs over `ℚ` (Python floats). -/

/-- `samples[-20:]`: the most recent 20 samples in arrival order. -/
def recentSamples (packet_times : List (ℚ × ℚ)) : List (ℚ × ℚ) :=
  packet_times.drop (packet_times.length - 20)

/-- The wall-clock span `recent_samples[-1][0] - recent_samples[0][0]`. -/
def timeSpan (packet_times : List (ℚ × ℚ)) : ℚ :=
  ((recentSamples packet_times).getLastD (0, 0)).1 -
    ((recentSamples packet_times).headD (0, 0)).1

/-- `NetworkMonitor.estimate_bandwidth`: default 100 KB/s below 10 samples,
otherwise the recent byte total over the recent time span, clamped by
`max(50, min(1000, ...))`; 100 again when the span is not positive. -/
def estimate_bandwidth (packet_times : List (ℚ × ℚ)) : ℚ :=
  if packet_times.length < 10 then 100
  else
    let total_bytes := ((recentSamples packet_times).map Prod.snd).sum
    if 0 < timeSpan packet_times then
      max 50 (min 1000 ((total_bytes / 1024) / timeSpan packet_times))
    else 100

/-- `NetworkMonitor.get_optimal_chunk_size`: narrows the base chunk range to
its lower third under low bandwidth and to its upper half under high
bandwidth (`//` is Python floor division). -/
def get_optimal_chunk_size (packet_times : List (ℚ × ℚ)) (base : Nat × Nat) :
    Nat × Nat :=
  let bandwidth := estimate_bandwidth packet_times
  if bandwidth < 100 then (base.1, base.1 + (base.2 - base.1) / 3)
  else if 300 < bandwidth then (base.1 + (base.2 - base.1) / 2, base.2)
  else base

/-! ## ChunkPlanner: the per-iteration chunk-size choice of the two senders -/

/-- `UDPStreamingServer.stream_file` lines 181–187: `chunk_size =
random.randint(1000, 2000)` clipped to the remaining bytes; `r` is the value
the random draw produced. -/
def chunk_choice (r remaining : Nat) : Nat :=
  if remaining < r then remaining else r

/-- `AdvancedUDPVideoServer._stream_file_adaptive` line 307:
`actual_chunk_size = min(chunk_size, remaining_bytes)`. -/
def adv_chunk_choice (r remaining : Nat) : Nat :=
  min r remaining

/-! ## StreamSender -/

/-- A packet sent on the wire, reduced to the fields the sender sets:
a DATA packet's sequence and chunk length, or an END packet's sequence. -/
inductive SentPacket where
  | dataP (seq size : Nat)
  | endP (seq : Nat)
  deriving DecidableEq, Repr

/-- Whether a sent packet is a DATA packet. -/
def isDataP : SentPacket → Bool
  | .dataP _ _ => true
  | _ => false

/-- Whether a sent packet is an END packet. -/
def isEndP : SentPacket → Bool
  | .endP _ => true
  | _ => false

/-- The `while bytes_sent < file_size` loop of
`UDPStreamingServer.stream_file`. `draw seq` is the `random.randint(1000,
2000)` result of the iteration sending sequence `seq`. Each non-final
iteration consumes at least one byte, so `file_size` is enough fuel. Returns
the DATA packets sent, the final sequence counter, and `bytes_sent`. -/
def streamLoopB (draw : Nat → Nat) :
    Nat → Nat → Nat → Nat → List (Nat × Nat) × Nat × Nat
  | 0, seq, bytes_sent, _ => ([], seq, bytes_sent)
  | fuel + 1, seq, bytes_sent, file_size =>
    if bytes_sent < file_size then
      let chunk := chunk_choice (draw seq) (file_size - bytes_sent)
      if chunk = 0 then ([], seq, bytes_sent)
      else
        let rest := streamLoopB draw fuel (seq + 1) (bytes_sent + chunk) file_size
        ((seq, chunk) :: rest.1, rest.2)
    else ([], seq, bytes_sent)

/-- `UDPStreamingServer.stream_file`: run the loop from sequence 0 and append
the single END packet carrying the final sequence counter. -/
def stream_file (draw : Nat → Nat) (file_size : Nat) : List SentPacket × Nat :=
  let r := streamLoopB draw file_size 0 0 file_size
  (r.1.map (fun p => SentPacket.dataP p.1 p.2) ++ [SentPacket.endP r.2.1], r.2.2)

/-- The send loop of `AdvancedUDPVideoServer._stream_file_adaptive`. `draw
seq` is the `random.randint` result drawn from the monitor-adjusted range in
the iteration sending sequence `seq`. -/
def advStreamLoop (draw : Nat → Nat) :
    Nat → Nat → Nat → Nat → List (Nat × Nat) × Nat × Nat
  | 0, seq, bytes_sent, _ => ([], seq, bytes_sent)
  | fuel + 1, seq, bytes_sent, total_size =>
    if bytes_sent < total_size then
      let chunk := adv_chunk_choice (draw seq) (total_size - bytes_sent)
      if chunk = 0 then ([], seq, bytes_sent)
      else
        let rest := advStreamLoop draw fuel (seq + 1) (bytes_sent + chunk) total_size
        ((seq, chunk) :: rest.1, rest.2)
    else ([], seq, bytes_sent)

/-- `AdvancedUDPVideoServer._stream_file_adaptive`: the sequence counter
starts at 1, and the END packet carries the counter's final value. -/
def adv_stream_file (draw : Nat → Nat) (total_size : Nat) : List SentPacket × Nat :=
  let r := advStreamLoop draw total_size 1 0 total_size
  (r.1.map (fun p => SentPacket.dataP p.1 p.2) ++ [SentPacket.endP r.2.1], r.2.2)

/-! ## Specification-side predicates -/

/-- Every payload held in a store is the payload the stream assigns to its
sequence number. -/
def entriesMatch (stream : Nat → List Nat) (buf : List (Nat × List Nat)) : Prop :=
  ∀ e ∈ buf, e.2 = stream e.1

/-- Contiguity invariant of the basic receiver: the output file holds exactly
the payloads of sequences `0, …, sequence_expected - 1`, in order, and the
out-of-order store holds stream payloads. -/
def clientInv (stream : Nat → List Nat) (st : ClientState) : Prop :=
  st.output = ((List.range' 0 st.sequence_expected).map stream).flatten ∧
  entriesMatch stream st.packets_buffer

/-- Contiguity invariant of the advanced receiver: the output file holds
exactly the payloads of sequences `1, …, next_expected_seq - 1`, in order. -/
def vbInv (stream : Nat → List Nat) (vb : VB) : Prop :=
  1 ≤ vb.next_expected_seq ∧ vb.has_file = true ∧
  vb.output = ((List.range' 1 (vb.next_expected_seq - 1)).map stream).flatten ∧
  entriesMatch stream vb.packets

/-! ## Lemmas about the embedded definitions -/

theorem length_toBytesBE (n v : Nat) : (toBytesBE n v).length = n := by
  induction n generalizing v with
  | zero => rfl
  | succ n ih => simp [toBytesBE, ih]

theorem fromBytesBE_append (l₁ l₂ : List Nat) :
    fromBytesBE (l₁ ++ l₂) = l₂.foldl (fun a b => a * 256 + b) (fromBytesBE l₁) := by
  simp [fromBytesBE, List.foldl_append]

theorem fromBytesBE_toBytesBE (n v : Nat) (h : v < 256 ^ n) :
    fromBytesBE (toBytesBE n v) = v := by
  induction n generalizing v with
  | zero =>
    interval_cases v
    rfl
  | succ n ih =>
    have hdiv : v / 256 < 256 ^ n := by
      rw [Nat.div_lt_iff_lt_mul (by norm_num)]
      calc v < 256 ^ (n + 1) := h
        _ = 256 ^ n * 256 := by ring
    have := ih (v / 256) hdiv
    simp [toBytesBE, fromBytesBE_append, this]
    omega

theorem parse_data_packet_eq_invalid (d : List Nat) :
    parse_data_packet d = .invalid := by
  unfold parse_data_packet
  split
  · rfl
  · rename_i h
    have h21 : (d.take 21).length = 21 := by
      simp [List.length_take]
      omega
    have : unpackBIIQQ (d.take 21) = none := by
      unfold unpackBIIQQ
      rw [h21]
      simp
    rw [this]

/-- Round-trip through the advanced codec: parsing an encoded packet
recovers every field, provided the fields fit their wire widths. -/
theorem parse_packet_create_packet (ptype seq : Nat) (data : List Nat)
    (total_size bytes_sent : Nat)
    (hty : ptype < 128) (hseq : seq < 2 ^ 32) (hlen : data.length < 2 ^ 32)
    (hbs : bytes_sent < 2 ^ 64) (hts : total_size < 2 ^ 64) :
    parse_packet (create_packet ptype seq data total_size bytes_sent) =
      some { ptype := ptype, seq := seq, data_size := data.length,
             bytes_sent := bytes_sent, total_size := total_size, data := data } := by
  have hmod : ptype % 256 = ptype := Nat.mod_eq_of_lt (by omega)
  have hdroptake : ∀ (pre post : List Nat) (n k : Nat), pre.length = n →
      post.length = k → ((pre ++ post).drop n).take k = post := by
    intro pre post n k hpre hpost
    rw [← hpre, List.drop_left, ← hpost, List.take_length]
  have hsplit : create_packet ptype seq data total_size bytes_sent =
      [ptype] ++ (toBytesBE 4 seq ++ toBytesBE 4 data.length ++
        toBytesBE 8 bytes_sent ++ toBytesBE 8 total_size ++ data) := by
    simp [create_packet, hmod]
  have hlen25 : 25 ≤ (create_packet ptype seq data total_size bytes_sent).length := by
    simp [create_packet, length_toBytesBE]
    omega
  have hhead : (create_packet ptype seq data total_size bytes_sent).headI = ptype := by
    rw [hsplit]; rfl
  unfold parse_packet
  rw [if_neg (by omega), hhead, if_neg (by omega)]
  have e1 : ((create_packet ptype seq data total_size bytes_sent).drop 1).take 4 =
      toBytesBE 4 seq := by
    have : create_packet ptype seq data total_size bytes_sent =
        [ptype] ++ (toBytesBE 4 seq ++ (toBytesBE 4 data.length ++
          toBytesBE 8 bytes_sent ++ toBytesBE 8 total_size ++ data)) := by
      simp [create_packet, hmod]
    rw [this, List.drop_left' (by rfl), List.take_left' (length_toBytesBE 4 seq)]
  have e2 : ((create_packet ptype seq data total_size bytes_sent).drop 5).take 4 =
      toBytesBE 4 data.length := by
    have : create_packet ptype seq data total_size bytes_sent =
        ([ptype] ++ toBytesBE 4 seq) ++ (toBytesBE 4 data.length ++
          (toBytesBE 8 bytes_sent ++ toBytesBE 8 total_size ++ data)) := by
      simp [create_packet, hmod]
    rw [this, List.drop_left' (by simp [length_toBytesBE]),
      List.take_left' (length_toBytesBE 4 data.length)]
  have e3 : ((create_packet ptype seq data total_size bytes_sent).drop 9).take 8 =
      toBytesBE 8 bytes_sent := by
    have : create_packet ptype seq data total_size bytes_sent =
        ([ptype] ++ toBytesBE 4 seq ++ toBytesBE 4 data.length) ++
          (toBytesBE 8 bytes_sent ++ (toBytesBE 8 total_size ++ data)) := by
      simp [create_packet, hmod]
    rw [this, List.drop_left' (by simp [length_toBytesBE]),
      List.take_left' (length_toBytesBE 8 bytes_sent)]
  have e4 : ((create_packet ptype seq data total_size bytes_sent).drop 17).take 8 =
      toBytesBE 8 total_size := by
    have : create_packet ptype seq data total_size bytes_sent =
        ([ptype] ++ toBytesBE 4 seq ++ toBytesBE 4 data.length ++
          toBytesBE 8 bytes_sent) ++ (toBytesBE 8 total_size ++ data) := by
      simp [create_packet, hmod]
    rw [this, List.drop_left' (by simp [length_toBytesBE]),
      List.take_left' (length_toBytesBE 8 total_size)]
  have e5 : (create_packet ptype seq data total_size bytes_sent).drop 25 = data := by
    have : create_packet ptype seq data total_size bytes_sent =
        ([ptype] ++ toBytesBE 4 seq ++ toBytesBE 4 data.length ++
          toBytesBE 8 bytes_sent ++ toBytesBE 8 total_size) ++ data := by
      simp [create_packet, hmod]
    rw [this, List.drop_left' (by simp [length_toBytesBE])]
  simp only [e1, e2, e3, e4, e5]
  rw [fromBytesBE_toBytesBE 4 seq hseq, fromBytesBE_toBytesBE 4 data.length hlen,
    fromBytesBE_toBytesBE 8 bytes_sent hbs, fromBytesBE_toBytesBE 8 total_size hts,
    List.take_length]

theorem popD_length {buf : List (Nat × List Nat)} {k : Nat} {v : List Nat}
    {rest : List (Nat × List Nat)} (h : popD buf k = some (v, rest)) :
    rest.length + 1 = buf.length := by
  induction buf generalizing rest with
  | nil => simp [popD] at h
  | cons hd t ih =>
    unfold popD at h
    split at h
    · cases h
      rfl
    · revert h
      split
      · intro h; cases h
      · rename_i veq req heq
        intro h
        cases h
        simp [ih heq]

theorem popD_mem {buf : List (Nat × List Nat)} {k : Nat} {v : List Nat}
    {rest : List (Nat × List Nat)} (h : popD buf k = some (v, rest)) :
    (k, v) ∈ buf ∧ ∀ e ∈ rest, e ∈ buf := by
  induction buf generalizing rest with
  | nil => simp [popD] at h
  | cons hd t ih =>
    unfold popD at h
    split at h
    · rename_i hk
      cases h
      subst hk
      exact ⟨List.mem_cons_self _ _, fun e he => List.mem_cons_of_mem _ he⟩
    · revert h
      split
      · intro h; cases h
      · rename_i veq req heq
        intro h
        cases h
        obtain ⟨h1, h2⟩ := ih heq
        refine ⟨List.mem_cons_of_mem _ h1, ?_⟩
        intro e he
        rcases List.mem_cons.mp he with h | h
        · exact h ▸ List.mem_cons_self _ _
        · exact List.mem_cons_of_mem _ (h2 e h)

theorem insertD_mem {buf : List (Nat × List Nat)} {k : Nat} {v : List Nat} :
    ∀ e ∈ insertD buf k v, e = (k, v) ∨ e ∈ buf := by
  induction buf with
  | nil => simp [insertD]
  | cons hd t ih =>
    unfold insertD
    split
    · intro e he
      rcases List.mem_cons.mp he with h | h
      · exact Or.inl h
      · exact Or.inr (List.mem_cons_of_mem _ h)
    · intro e he
      rcases List.mem_cons.mp he with h | h
      · exact Or.inr (h ▸ List.mem_cons_self _ _)
      · rcases ih e h with h' | h'
        · exact Or.inl h'
        · exact Or.inr (List.mem_cons_of_mem _ h')

theorem drainAux_spec (stream : Nat → List Nat) :
    ∀ (fuel e : Nat) (buf : List (Nat × List Nat)) (acc : List Nat),
      entriesMatch stream buf →
      e ≤ (drainAux fuel e buf acc).1 ∧
      entriesMatch stream (drainAux fuel e buf acc).2.1 ∧
      (drainAux fuel e buf acc).2.2 =
        acc ++ ((List.range' e ((drainAux fuel e buf acc).1 - e)).map stream).flatten := by
  intro fuel
  induction fuel with
  | zero =>
    intro e buf acc h
    exact ⟨le_refl e, h, by simp [drainAux]⟩
  | succ fuel ih =>
    intro e buf acc h
    rcases hp : popD buf e with _ | ⟨d, rest⟩
    · have hr : drainAux (fuel + 1) e buf acc = (e, buf, acc) := by
        simp [drainAux, hp]
      rw [hr]
      exact ⟨le_refl e, h, by simp⟩
    · have hr : drainAux (fuel + 1) e buf acc =
          drainAux fuel (e + 1) rest (acc ++ d) := by
        simp [drainAux, hp]
      have hm := popD_mem hp
      have hd : d = stream e := h _ hm.1
      subst hd
      have hrest : entriesMatch stream rest := fun x hx => h x (hm.2 x hx)
      obtain ⟨h1, h2, h3⟩ := ih (e + 1) rest (acc ++ stream e) hrest
      rw [hr]
      refine ⟨by omega, h2, ?_⟩
      rw [h3]
      have hk : (drainAux fuel (e + 1) rest (acc ++ stream e)).1 - e =
          ((drainAux fuel (e + 1) rest (acc ++ stream e)).1 - (e + 1)) + 1 := by
        omega
      rw [hk, List.range'_succ]
      simp

theorem launch_media_player_clientInv (stream : Nat → List Nat)
    (st : ClientState) (h : clientInv stream st) :
    clientInv stream (launch_media_player st) := by
  unfold launch_media_player
  split
  · exact h
  · exact h

theorem store_data_packet_clientInv (stream : Nat → List Nat) (st : ClientState)
    (seq : Nat) (data : List Nat) (hd : data = stream seq)
    (h : clientInv stream st) :
    clientInv stream (store_data_packet st seq data) := by
  obtain ⟨hout, hbuf⟩ := h
  by_cases hs : seq = st.sequence_expected
  · subst hs
    unfold store_data_packet
    rw [if_pos rfl]
    obtain ⟨h1, h2, h3⟩ := drainAux_spec stream st.packets_buffer.length
      (st.sequence_expected + 1) st.packets_buffer [] hbuf
    refine ⟨?_, h2⟩
    show st.output ++ data ++ _ = _
    rw [hout, h3, hd]
    set e0 := st.sequence_expected with he0
    set r := drainAux st.packets_buffer.length (e0 + 1) st.packets_buffer []
    have hsplit : List.range' 0 r.1 =
        List.range' 0 (e0 + 1) ++ List.range' (e0 + 1) (r.1 - (e0 + 1)) := by
      have ha := List.range'_append 0 (e0 + 1) (r.1 - (e0 + 1)) 1
      simp only [Nat.one_mul, Nat.zero_add] at ha
      rw [ha]
      congr 1
      omega
    rw [hsplit]
    have hconcat : List.range' 0 (e0 + 1) = List.range' 0 e0 ++ [e0] := by
      have ha := List.range'_append 0 e0 1 1
      simp only [Nat.one_mul, Nat.zero_add] at ha
      rw [Nat.add_comm e0 1, ← ha]
      rfl
    rw [hconcat]
    simp
  · unfold store_data_packet
    rw [if_neg hs]
    refine ⟨hout, ?_⟩
    intro x hx
    rcases insertD_mem x hx with h' | h'
    · rw [h']
      exact hd
    · exact hbuf x h'

theorem handle_data_packet_clientInv (stream : Nat → List Nat) (st : ClientState)
    (seq : Nat) (data : List Nat) (hd : data = stream seq)
    (h : clientInv stream st) :
    clientInv stream (handle_data_packet st seq data) := by
  unfold handle_data_packet check_playback_launch
  split
  · exact launch_media_player_clientInv stream _
      (store_data_packet_clientInv stream st seq data hd h)
  · exact store_data_packet_clientInv stream st seq data hd h

theorem add_packet_vbInv (stream : Nat → List Nat) (vb : VB)
    (seq : Nat) (data : List Nat) (hd : data = stream seq)
    (h : vbInv stream vb) :
    vbInv stream (add_packet vb seq data).1 := by
  obtain ⟨h1, h2, h3, h4⟩ := h
  unfold add_packet
  by_cases hc : vb.next_expected_seq ≤ seq
  · rw [if_pos hc]
    have hins : entriesMatch stream (insertD vb.packets seq data) := by
      intro x hx
      rcases insertD_mem x hx with h' | h'
      · rw [h']
        exact hd
      · exact h4 x h'
    obtain ⟨g1, g2, g3⟩ := drainAux_spec stream (insertD vb.packets seq data).length
      vb.next_expected_seq (insertD vb.packets seq data) [] hins
    set r := drainAux (insertD vb.packets seq data).length vb.next_expected_seq
      (insertD vb.packets seq data) []
    refine ⟨show 1 ≤ r.1 by omega, h2, ?_, g2⟩
    show (if vb.has_file then vb.output ++ r.2.2 else vb.output) = _
    rw [h2, if_pos rfl, h3, g3]
    have hsplit : List.range' 1 (r.1 - 1) =
        List.range' 1 (vb.next_expected_seq - 1) ++
          List.range' vb.next_expected_seq (r.1 - vb.next_expected_seq) := by
      have ha := List.range'_append 1 (vb.next_expected_seq - 1)
        (r.1 - vb.next_expected_seq) 1
      simp only [Nat.one_mul] at ha
      rw [show 1 + (vb.next_expected_seq - 1) = vb.next_expected_seq by omega] at ha
      rw [ha]
      congr 1
      omega
    rw [hsplit]
    simp
  · rw [if_neg hc]
    exact ⟨h1, h2, h3, h4⟩

theorem runClient_clientInv (stream : Nat → List Nat)
    (ps : List (Nat × List Nat)) :
    ∀ st : ClientState, clientInv stream st → (∀ p ∈ ps, p.2 = stream p.1) →
      clientInv stream (runClient st ps) := by
  induction ps with
  | nil =>
    intro st h _
    exact h
  | cons p t ih =>
    intro st h hp
    show clientInv stream (runClient (handle_data_packet st p.1 p.2) t)
    exact ih _
      (handle_data_packet_clientInv stream st p.1 p.2
        (hp p (List.mem_cons_self p t)) h)
      (fun q hq => hp q (List.mem_cons_of_mem p hq))

theorem runVB_vbInv (stream : Nat → List Nat) (ps : List (Nat × List Nat)) :
    ∀ vb : VB, vbInv stream vb → (∀ p ∈ ps, p.2 = stream p.1) →
      vbInv stream (runVB vb ps) := by
  induction ps with
  | nil =>
    intro vb h _
    exact h
  | cons p t ih =>
    intro vb h hp
    show vbInv stream (runVB (add_packet vb p.1 p.2).1 t)
    exact ih _
      (add_packet_vbInv stream vb p.1 p.2 (hp p (List.mem_cons_self p t)) h)
      (fun q hq => hp q (List.mem_cons_of_mem p hq))

/-- C2: for every sequence of DATA packets drawn from a stream — in any
arrival order, with any subset dropped — the bytes each receiver has written
are exactly the concatenation of the stream payloads of the contiguous
sequence prefix below its `expected` counter: sequences `0 ..
sequence_expected - 1` for the basic client (`handle_data_packet`),
sequences `1 .. next_expected_seq - 1` for the advanced `VideoBuffer`.
No byte is written out of place and no gap is ever written. -/
theorem c2_reassembly_writes_contiguous_prefix (stream : Nat → List Nat)
    (ps : List (Nat × List Nat)) (es sz : Nat)
    (h : ∀ p ∈ ps, p.2 = stream p.1) :
    (runClient (initClientState es) ps).output =
      ((List.range' 0 (runClient (initClientState es) ps).sequence_expected).map
        stream).flatten ∧
    (runVB (initialize_file vbInit sz) ps).output =
      ((List.range' 1
        ((runVB (initialize_file vbInit sz) ps).next_expected_seq - 1)).map
        stream).flatten := by
  constructor
  · have hinit : clientInv stream (initClientState es) := by
      refine ⟨by simp [initClientState], ?_⟩
      intro x hx
      simp [initClientState] at hx
    exact (runClient_clientInv stream ps _ hinit h).1
  · have hinit : vbInv stream (initialize_file vbInit sz) := by
      refine ⟨by simp [initialize_file, vbInit], by simp [initialize_file], ?_, ?_⟩
      · simp [initialize_file, vbInit]
      · intro x hx
        simp [initialize_file, vbInit] at hx
    exact (runVB_vbInv stream ps _ hinit h).2.2.1

/-- Witness for C2: the arrival order 2, 1, 0 with payloads `[2]`, `[1]`,
`[0]` leaves the basic client with output `[0], [1], [2]` flattened and the
advanced buffer (which starts expecting sequence 1) with `[1], [2]`. -/
theorem c2_reassembly_writes_contiguous_prefix_witness :
    (runClient (initClientState 0) [(2, [2]), (1, [1]), (0, [0])]).output =
      ((List.range' 0
        (runClient (initClientState 0)
          [(2, [2]), (1, [1]), (0, [0])]).sequence_expected).map
        (fun n => [n])).flatten ∧
    (runVB (initialize_file vbInit 0) [(2, [2]), (1, [1]), (0, [0])]).output =
      ((List.range' 1
        ((runVB (initialize_file vbInit 0)
          [(2, [2]), (1, [1]), (0, [0])]).next_expected_seq - 1)).map
        (fun n => [n])).flatten :=
  c2_reassembly_writes_contiguous_prefix (fun n => [n])
    [(2, [2]), (1, [1]), (0, [0])] 0 0 (by decide)

theorem popD_eq_none {buf : List (Nat × List Nat)} {k : Nat}
    (h : k ∉ buf.map Prod.fst) : popD buf k = none := by
  induction buf with
  | nil => rfl
  | cons hd t ih =>
    obtain ⟨k', v'⟩ := hd
    simp only [List.map_cons, List.mem_cons] at h
    push_neg at h
    unfold popD
    rw [if_neg (Ne.symm h.1), ih h.2]

theorem insertD_fresh {buf : List (Nat × List Nat)} {k : Nat} {v : List Nat}
    (h : k ∉ buf.map Prod.fst) : insertD buf k v = buf ++ [(k, v)] := by
  induction buf with
  | nil => rfl
  | cons hd t ih =>
    obtain ⟨k', v'⟩ := hd
    simp only [List.map_cons, List.mem_cons] at h
    push_neg at h
    unfold insertD
    rw [if_neg (Ne.symm h.1), ih h.2]
    rfl

theorem drainAux_of_popD_none {e : Nat} {buf : List (Nat × List Nat)}
    {acc : List Nat} (h : popD buf e = none) :
    ∀ fuel, drainAux fuel e buf acc = (e, buf, acc) := by
  intro fuel
  cases fuel with
  | zero => rfl
  | succ n => simp [drainAux, h]

theorem handle_data_packet_out_of_order (st : ClientState) (seq : Nat)
    (data : List Nat) (hs : seq ≠ st.sequence_expected) :
    (handle_data_packet st seq data).packets_buffer =
      insertD st.packets_buffer seq data ∧
    (handle_data_packet st seq data).sequence_expected = st.sequence_expected ∧
    (handle_data_packet st seq data).output = st.output ∧
    (handle_data_packet st seq data).received_bytes = st.received_bytes := by
  unfold handle_data_packet check_playback_launch store_data_packet
    launch_media_player
  rw [if_neg hs]
  split_ifs <;> simp

theorem runClient_out_of_order (l : List (Nat × List Nat)) :
    ∀ st : ClientState, st.sequence_expected = 0 →
      (∀ p ∈ l, p.1 ≠ 0) → (l.map Prod.fst).Nodup →
      (∀ p ∈ l, p.1 ∉ st.packets_buffer.map Prod.fst) →
      (runClient st l).packets_buffer.map Prod.fst =
        st.packets_buffer.map Prod.fst ++ l.map Prod.fst ∧
      (runClient st l).sequence_expected = 0 := by
  induction l with
  | nil =>
    intro st h0 _ _ _
    exact ⟨by simp [runClient], h0⟩
  | cons p t ih =>
    intro st h0 hnz hnd hdisj
    have hs : p.1 ≠ st.sequence_expected := by
      rw [h0]
      exact hnz p (List.mem_cons_self p t)
    obtain ⟨hb, he, _, _⟩ := handle_data_packet_out_of_order st p.1 p.2 hs
    have hfresh : p.1 ∉ st.packets_buffer.map Prod.fst :=
      hdisj p (List.mem_cons_self p t)
    have hb' : (handle_data_packet st p.1 p.2).packets_buffer =
        st.packets_buffer ++ [(p.1, p.2)] := by
      rw [hb, insertD_fresh hfresh]
    have hnd' : p.1 ∉ t.map Prod.fst ∧ (t.map Prod.fst).Nodup := by
      rw [List.map_cons] at hnd
      exact List.nodup_cons.mp hnd
    obtain ⟨ih1, ih2⟩ := ih (handle_data_packet st p.1 p.2)
      (by rw [he, h0])
      (fun q hq => hnz q (List.mem_cons_of_mem p hq))
      hnd'.2
      (by
        intro q hq
        rw [hb']
        simp only [List.map_append, List.map_cons, List.map_nil,
          List.mem_append, List.mem_singleton]
        push_neg
        refine ⟨hdisj q (List.mem_cons_of_mem p hq), ?_⟩
        intro hq1
        exact hnd'.1 (hq1 ▸ List.mem_map_of_mem Prod.fst hq))
    refine ⟨?_, ih2⟩
    show (runClient (handle_data_packet st p.1 p.2) t).packets_buffer.map
      Prod.fst = _
    rw [ih1, hb']
    simp

theorem add_packet_out_of_order (vb : VB) (seq : Nat) (data : List Nat)
    (h1 : vb.next_expected_seq = 1) (h2 : 2 ≤ seq)
    (hfresh : seq ∉ vb.packets.map Prod.fst)
    (hk : ∀ k ∈ vb.packets.map Prod.fst, 2 ≤ k) :
    (add_packet vb seq data).1.packets = vb.packets ++ [(seq, data)] ∧
    (add_packet vb seq data).1.next_expected_seq = 1 := by
  unfold add_packet
  rw [if_pos (show vb.next_expected_seq ≤ seq by omega)]
  have hins := insertD_fresh (v := data) hfresh
  have h1mem : (1 : Nat) ∉ (insertD vb.packets seq data).map Prod.fst := by
    rw [hins]
    simp only [List.map_append, List.map_cons, List.map_nil,
      List.mem_append, List.mem_singleton]
    push_neg
    refine ⟨fun hmem => ?_, by omega⟩
    have := hk 1 hmem
    omega
  have hdrain := @drainAux_of_popD_none _ _ []
    (popD_eq_none (h1 ▸ h1mem)) (insertD vb.packets seq data).length
  refine ⟨?_, ?_⟩
  · show (drainAux (insertD vb.packets seq data).length vb.next_expected_seq
      (insertD vb.packets seq data) []).2.1 = _
    rw [hdrain, hins]
  · show (drainAux (insertD vb.packets seq data).length vb.next_expected_seq
      (insertD vb.packets seq data) []).1 = 1
    rw [hdrain, h1]

theorem runVB_out_of_order (l : List (Nat × List Nat)) :
    ∀ vb : VB, vb.next_expected_seq = 1 → (∀ p ∈ l, 2 ≤ p.1) →
      (l.map Prod.fst).Nodup →
      (∀ p ∈ l, p.1 ∉ vb.packets.map Prod.fst) →
      (∀ k ∈ vb.packets.map Prod.fst, 2 ≤ k) →
      (runVB vb l).packets.map Prod.fst =
        vb.packets.map Prod.fst ++ l.map Prod.fst ∧
      (runVB vb l).next_expected_seq = 1 := by
  induction l with
  | nil =>
    intro vb h1 _ _ _ _
    exact ⟨by simp [runVB], h1⟩
  | cons p t ih =>
    intro vb h1 h2 hnd hdisj hk
    have hfresh : p.1 ∉ vb.packets.map Prod.fst :=
      hdisj p (List.mem_cons_self p t)
    obtain ⟨hb, he⟩ := add_packet_out_of_order vb p.1 p.2 h1
      (h2 p (List.mem_cons_self p t)) hfresh hk
    have hnd' : p.1 ∉ t.map Prod.fst ∧ (t.map Prod.fst).Nodup := by
      rw [List.map_cons] at hnd
      exact List.nodup_cons.mp hnd
    obtain ⟨ih1, ih2⟩ := ih (add_packet vb p.1 p.2).1 he
      (fun q hq => h2 q (List.mem_cons_of_mem p hq))
      hnd'.2
      (by
        intro q hq
        rw [hb]
        simp only [List.map_append, List.map_cons, List.map_nil,
          List.mem_append, List.mem_singleton]
        push_neg
        refine ⟨hdisj q (List.mem_cons_of_mem p hq), ?_⟩
        intro hq1
        exact hnd'.1 (hq1 ▸ List.mem_map_of_mem Prod.fst hq))
      (by
        intro k hkmem
        rw [hb] at hkmem
        simp only [List.map_append, List.map_cons, List.map_nil,
          List.mem_append, List.mem_singleton] at hkmem
        rcases hkmem with h | h
        · exact hk k h
        · exact h ▸ h2 p (List.mem_cons_self p t))
    refine ⟨?_, ih2⟩
    show (runVB (add_packet vb p.1 p.2).1 t).packets.map Prod.fst = _
    rw [ih1, hb]
    simp

theorem store_data_packet_flags (st : ClientState) (seq : Nat)
    (data : List Nat) :
    (store_data_packet st seq data).media_player_launched =
      st.media_player_launched ∧
    (store_data_packet st seq data).emissions = st.emissions := by
  unfold store_data_packet
  split_ifs <;> exact ⟨rfl, rfl⟩

theorem handle_data_packet_launch_inv (st : ClientState) (seq : Nat)
    (data : List Nat)
    (h : (st.media_player_launched = false ∧ st.emissions = 0) ∨
      (st.media_player_launched = true ∧ st.emissions = 1)) :
    ((handle_data_packet st seq data).media_player_launched = false ∧
      (handle_data_packet st seq data).emissions = 0) ∨
    ((handle_data_packet st seq data).media_player_launched = true ∧
      (handle_data_packet st seq data).emissions = 1) := by
  obtain ⟨hf, he⟩ := store_data_packet_flags st seq data
  unfold handle_data_packet check_playback_launch launch_media_player
  split_ifs with hc hl
  · right
    refine ⟨hl, ?_⟩
    exact absurd hl (by simpa using hc.1)
  · right
    refine ⟨rfl, ?_⟩
    have hlf : (store_data_packet st seq data).media_player_launched = false := by
      simpa using hc.1
    rcases h with ⟨_, h2⟩ | ⟨h1, _⟩
    · show (store_data_packet st seq data).emissions + 1 = 1
      rw [he, h2]
    · rw [hf, h1] at hlf
      cases hlf
  · rcases h with ⟨h1, h2⟩ | ⟨h1, h2⟩
    · exact Or.inl ⟨hf.trans h1, he.trans h2⟩
    · exact Or.inr ⟨hf.trans h1, he.trans h2⟩

theorem recvStep_launch_inv (st : AdvClientState) (p : RecvPacket)
    (h : (st.media_player_launched = false ∧ st.emissions = 0) ∨
      (st.media_player_launched = true ∧ st.emissions = 1)) :
    ((recvStep st p).media_player_launched = false ∧
      (recvStep st p).emissions = 0) ∨
    ((recvStep st p).media_player_launched = true ∧
      (recvStep st p).emissions = 1) := by
  unfold recvStep
  split
  · exact h
  · cases p with
    | info size => exact h
    | dat seq payload =>
      dsimp only
      split_ifs with hf hc
      · right
        refine ⟨rfl, ?_⟩
        have hlf : st.media_player_launched = false := by simpa using hc.2
        rcases h with ⟨_, h2⟩ | ⟨h1, _⟩
        · show st.emissions + 1 = 1
          rw [h2]
        · rw [h1] at hlf
          cases hlf
      · exact h
      · exact h
    | endOfStream => exact h
    | errorMsg => exact h

theorem recvRun_launch_inv (ps : List RecvPacket) :
    ∀ st : AdvClientState,
      (st.media_player_launched = false ∧ st.emissions = 0) ∨
        (st.media_player_launched = true ∧ st.emissions = 1) →
      ((recvRun st ps).media_player_launched = false ∧
        (recvRun st ps).emissions = 0) ∨
      ((recvRun st ps).media_player_launched = true ∧
        (recvRun st ps).emissions = 1) := by
  induction ps with
  | nil => intro st h; exact h
  | cons p t ih =>
    intro st h
    exact ih (recvStep st p) (recvStep_launch_inv st p h)

theorem runClient_launch_inv (qs : List (Nat × List Nat)) :
    ∀ st : ClientState,
      (st.media_player_launched = false ∧ st.emissions = 0) ∨
        (st.media_player_launched = true ∧ st.emissions = 1) →
      ((runClient st qs).media_player_launched = false ∧
        (runClient st qs).emissions = 0) ∨
      ((runClient st qs).media_player_launched = true ∧
        (runClient st qs).emissions = 1) := by
  induction qs with
  | nil => intro st h; exact h
  | cons p t ih =>
    intro st h
    exact ih (handle_data_packet st p.1 p.2)
      (handle_data_packet_launch_inv st p.1 p.2 h)

/-- `recvStep` from a state whose `file_initialized` flag is still false
leaves the flag false and the buffer and emission count untouched: the INFO
branch that would set the flag is dead, the DATA branch is guarded by the
flag, and the remaining datagrams only stop the loop. -/
theorem recvStep_uninit (st : AdvClientState) (p : RecvPacket)
    (h : st.file_initialized = false) :
    (recvStep st p).file_initialized = false ∧
    (recvStep st p).buffer = st.buffer ∧
    (recvStep st p).emissions = st.emissions := by
  unfold recvStep
  cases p <;> split <;> simp [h]

/-- The no-initialization invariant of `recvStep_uninit`, run over a whole
arrival list. -/
theorem recvRun_uninit (ps : List RecvPacket) :
    ∀ st : AdvClientState, st.file_initialized = false →
      (recvRun st ps).file_initialized = false ∧
      (recvRun st ps).buffer = st.buffer ∧
      (recvRun st ps).emissions = st.emissions := by
  induction ps with
  | nil => intro st h; exact ⟨h, rfl, rfl⟩
  | cons p t ih =>
    intro st h
    obtain ⟨h1, h2, h3⟩ := recvStep_uninit st p h
    obtain ⟨g1, g2, g3⟩ := ih (recvStep st p) h1
    exact ⟨g1, g2.trans h2, g3.trans h3⟩

theorem streamLoopB_seq (draw : Nat → Nat) :
    ∀ (fuel seq bytes_sent file_size : Nat),
      (streamLoopB draw fuel seq bytes_sent file_size).2.1 =
        seq + (streamLoopB draw fuel seq bytes_sent file_size).1.length := by
  intro fuel
  induction fuel with
  | zero =>
    intro seq b t
    simp [streamLoopB]
  | succ fuel ih =>
    intro seq b t
    unfold streamLoopB
    dsimp only
    split_ifs with h1 h2
    · simp
    · have := ih (seq + 1) (b + chunk_choice (draw seq) (t - b)) t
      simp only [List.length_cons]
      omega
    · simp

theorem advStreamLoop_seq (draw : Nat → Nat) :
    ∀ (fuel seq bytes_sent total_size : Nat),
      (advStreamLoop draw fuel seq bytes_sent total_size).2.1 =
        seq + (advStreamLoop draw fuel seq bytes_sent total_size).1.length := by
  intro fuel
  induction fuel with
  | zero =>
    intro seq b t
    simp [advStreamLoop]
  | succ fuel ih =>
    intro seq b t
    unfold advStreamLoop
    dsimp only
    split_ifs with h1 h2
    · simp
    · have := ih (seq + 1) (b + adv_chunk_choice (draw seq) (t - b)) t
      simp only [List.length_cons]
      omega
    · simp

theorem streamLoopB_bytes (draw : Nat → Nat) (hdraw : ∀ i, 1 ≤ draw i) :
    ∀ (fuel seq bytes_sent file_size : Nat), bytes_sent ≤ file_size →
      file_size - bytes_sent ≤ fuel →
      (streamLoopB draw fuel seq bytes_sent file_size).2.2 = file_size := by
  intro fuel
  induction fuel with
  | zero =>
    intro seq b t hb hf
    have hbt : b = t := by omega
    simp [streamLoopB, hbt]
  | succ fuel ih =>
    intro seq b t hb hf
    unfold streamLoopB
    dsimp only
    by_cases h1 : b < t
    · rw [if_pos h1]
      have hc1 : 1 ≤ chunk_choice (draw seq) (t - b) := by
        have := hdraw seq
        unfold chunk_choice
        split_ifs <;> omega
      have hc2 : chunk_choice (draw seq) (t - b) ≤ t - b := by
        unfold chunk_choice
        split_ifs <;> omega
      rw [if_neg (by omega)]
      exact ih (seq + 1) (b + chunk_choice (draw seq) (t - b)) t
        (by omega) (by omega)
    · rw [if_neg h1]
      show b = t
      omega

theorem advStreamLoop_bytes (draw : Nat → Nat) (hdraw : ∀ i, 1 ≤ draw i) :
    ∀ (fuel seq bytes_sent total_size : Nat), bytes_sent ≤ total_size →
      total_size - bytes_sent ≤ fuel →
      (advStreamLoop draw fuel seq bytes_sent total_size).2.2 = total_size := by
  intro fuel
  induction fuel with
  | zero =>
    intro seq b t hb hf
    have hbt : b = t := by omega
    simp [advStreamLoop, hbt]
  | succ fuel ih =>
    intro seq b t hb hf
    unfold advStreamLoop
    dsimp only
    by_cases h1 : b < t
    · rw [if_pos h1]
      have hc1 : 1 ≤ adv_chunk_choice (draw seq) (t - b) := by
        have := hdraw seq
        unfold adv_chunk_choice
        omega
      have hc2 : adv_chunk_choice (draw seq) (t - b) ≤ t - b := by
        unfold adv_chunk_choice
        omega
      rw [if_neg (by omega)]
      exact ih (seq + 1) (b + adv_chunk_choice (draw seq) (t - b)) t
        (by omega) (by omega)
    · rw [if_neg h1]
      show b = t
      omega

theorem countP_map_dataP (l : List (Nat × Nat)) :
    (l.map (fun p => SentPacket.dataP p.1 p.2)).countP isEndP = 0 := by
  rw [List.countP_map]
  simp [isEndP, Function.comp]

theorem countP_map_dataP_data (l : List (Nat × Nat)) :
    (l.map (fun p => SentPacket.dataP p.1 p.2)).countP isDataP = l.length := by
  rw [List.countP_map]
  simp [isDataP, Function.comp]

/-! ## Claim theorems -/

/-- C1: the round-trip claim fails on the basic pair because
`UDPStreamingClient.parse_data_packet` unpacks the 25-byte format
`'!BII QQ'` from the 21-byte slice `data[:21]`: the raised `struct.error`
makes it return INVALID for every input, in particular for every packet
`UDPStreamingServer.create_data_packet` encodes (here sequence 3, payload
"Hi", 0 bytes sent, total size 2). -/
theorem c1_basic_decoder_rejects_every_packet :
    parse_data_packet (create_data_packet 3 [72, 105] 0 2) = ParsedData.invalid ∧
    ∀ d : List Nat, parse_data_packet d = ParsedData.invalid :=
  ⟨parse_data_packet_eq_invalid _, parse_data_packet_eq_invalid⟩

/-- C4: with base range [1000, 2000] the chunk chosen by either sender lies
in [1000, 2000] whenever at least the planned (randomly drawn) size remains,
including under every adaptive narrowing `NetworkMonitor.get_optimal_chunk_size`
can produce; when fewer bytes remain than planned, the chunk is exactly the
remaining count. -/
theorem c4_chunk_size_respects_range (r remaining : Nat)
    (packet_times : List (ℚ × ℚ)) :
    (1000 ≤ r → r ≤ 2000 → r ≤ remaining →
      1000 ≤ chunk_choice r remaining ∧ chunk_choice r remaining ≤ 2000) ∧
    (remaining < r → chunk_choice r remaining = remaining) ∧
    ((get_optimal_chunk_size packet_times (1000, 2000)).1 ≤ r →
      r ≤ (get_optimal_chunk_size packet_times (1000, 2000)).2 →
      r ≤ remaining →
      1000 ≤ adv_chunk_choice r remaining ∧ adv_chunk_choice r remaining ≤ 2000) ∧
    (remaining < r → adv_chunk_choice r remaining = remaining) := by
  have hrange : 1000 ≤ (get_optimal_chunk_size packet_times (1000, 2000)).1 ∧
      (get_optimal_chunk_size packet_times (1000, 2000)).2 ≤ 2000 := by
    simp only [get_optimal_chunk_size]
    split_ifs <;> norm_num
  refine ⟨?_, ?_, ?_, ?_⟩
  · intro h1 h2 h3
    unfold chunk_choice
    rw [if_neg (by omega)]
    exact ⟨h1, h2⟩
  · intro h1
    unfold chunk_choice
    rw [if_pos h1]
  · intro h1 h2 h3
    unfold adv_chunk_choice
    rw [Nat.min_eq_left h3]
    omega
  · intro h1
    unfold adv_chunk_choice
    omega

/-- Witness for C4: a draw of 1500 with 5000 bytes left is kept; a draw of
1700 with 600 bytes left is clipped to 600. -/
theorem c4_chunk_size_respects_range_witness :
    (1000 ≤ chunk_choice 1500 5000 ∧ chunk_choice 1500 5000 ≤ 2000) ∧
    chunk_choice 1700 600 = 600 ∧ adv_chunk_choice 1700 600 = 600 :=
  ⟨(c4_chunk_size_respects_range 1500 5000 []).1 (by norm_num) (by norm_num)
      (by norm_num),
    (c4_chunk_size_respects_range 1700 600 []).2.1 (by norm_num),
    (c4_chunk_size_respects_range 1700 600 []).2.2.2 (by norm_num)⟩

/-- C8: `NetworkMonitor.estimate_bandwidth` always returns a value in
[50, 1000] KB/s; with fewer than 10 recorded samples, or when the wall-clock
span of the most recent 20 samples is zero, it returns exactly 100. -/
theorem c8_estimate_bandwidth_bounds (packet_times : List (ℚ × ℚ)) :
    (50 ≤ estimate_bandwidth packet_times ∧
      estimate_bandwidth packet_times ≤ 1000) ∧
    (packet_times.length < 10 → estimate_bandwidth packet_times = 100) ∧
    (timeSpan packet_times = 0 → estimate_bandwidth packet_times = 100) := by
  unfold estimate_bandwidth
  by_cases h1 : packet_times.length < 10
  · rw [if_pos h1]
    norm_num
  · rw [if_neg h1]
    by_cases h2 : 0 < timeSpan packet_times
    · rw [if_pos h2]
      refine ⟨⟨le_max_left _ _, max_le (by norm_num) (min_le_left _ _)⟩, ?_, ?_⟩
      · intro h
        exact absurd h h1
      · intro h
        rw [h] at h2
        exact absurd h2 (lt_irrefl 0)
    · rw [if_neg h2]
      refine ⟨by norm_num, fun h => absurd h h1, fun _ => rfl⟩

/-- Witness for C8: with no samples recorded the estimate is exactly 100. -/
theorem c8_estimate_bandwidth_bounds_witness :
    estimate_bandwidth [] = 100 :=
  (c8_estimate_bandwidth_bounds []).2.1 (by norm_num)

/-- C10: in `AdvancedUDPVideoClient._receive_stream`, a DATA packet arriving
before any INFO packet set `file_initialized` leaves the entire receiver
state unchanged: nothing is written or buffered, and `bytes_received`,
`next_expected_seq` and the statistics counters keep their values. -/
theorem c10_data_before_info_is_discarded (st : AdvClientState) (seq : Nat)
    (payload : List Nat) (h : st.file_initialized = false) :
    recvStep st (RecvPacket.dat seq payload) = st := by
  unfold recvStep
  split <;> simp [h]

/-- Witness for C10: the very first DATA packet of a session whose INFO
datagram has not arrived is discarded. -/
theorem c10_data_before_info_is_discarded_witness :
    recvStep advInit (RecvPacket.dat 1 [65]) = advInit :=
  c10_data_before_info_is_discarded advInit 1 [65] rfl

/-- C3 (amended): the out-of-order scenario [0, 2, 1, 3] with payloads
"A","C","B","D" plays out as claimed on the basic receiver, whose stream
starts at sequence 0: "A" is written immediately, "C" is held out of order,
"B" and "C" are flushed in order when sequence 1 arrives, then "D", and the
final output is "ABCD". The advanced `VideoBuffer` starts at sequence 1 and
drops sequence 0, ending with "BCD" instead. -/
theorem c3_out_of_order_scenario :
    (runClient (initClientState 10) [(0, [65])]).output = [65] ∧
    (runClient (initClientState 10) [(0, [65]), (2, [67])]).output = [65] ∧
    (runClient (initClientState 10) [(0, [65]), (2, [67])]).packets_buffer =
      [(2, [67])] ∧
    (runClient (initClientState 10)
      [(0, [65]), (2, [67]), (1, [66])]).output = [65, 66, 67] ∧
    (runClient (initClientState 10)
      [(0, [65]), (2, [67]), (1, [66]), (3, [68])]).output =
      [65, 66, 67, 68] ∧
    (runVB (initialize_file vbInit 4)
      [(0, [65]), (2, [67]), (1, [66]), (3, [68])]).output = [66, 67, 68] := by
  decide

/-- C3 counterexample: on the advanced receiver the same arrival order ends
with output "BCD" (bytes 66, 67, 68), not "ABCD": sequence 0 is below
`next_expected_seq = 1` and is silently dropped. -/
theorem c3_advanced_output_is_not_abcd :
    (runVB (initialize_file vbInit 4)
      [(0, [65]), (2, [67]), (1, [66]), (3, [68])]).output ≠
      [65, 66, 67, 68] := by
  decide

/-- C5 (amended): the out-of-order stores of both receivers are unbounded:
there is no buffer-size limit, no eviction and no loss accounting — `n`
distinct out-of-order sequences leave `n` buffered entries, for every `n`. -/
theorem c5_out_of_order_store_unbounded (n : Nat) :
    (runClient (initClientState 0)
      ((List.range n).map (fun i => (i + 1, [0])))).packets_buffer.length = n ∧
    (runVB (initialize_file vbInit 0)
      ((List.range n).map (fun i => (i + 2, [0])))).packets.length = n := by
  constructor
  · have h := runClient_out_of_order
      ((List.range n).map (fun i => (i + 1, [0]))) (initClientState 0) rfl
      (by
        intro p hp
        obtain ⟨i, _, rfl⟩ := List.mem_map.mp hp
        exact Nat.succ_ne_zero i)
      (by
        rw [List.map_map]
        exact List.Nodup.map (fun a b hab => by simp at hab; omega) (List.nodup_range n))
      (by
        intro p _
        simp [initClientState])
    have hlen : (runClient (initClientState 0)
        ((List.range n).map (fun i => (i + 1, [0])))).packets_buffer.length =
        ((runClient (initClientState 0)
          ((List.range n).map (fun i => (i + 1, [0])))).packets_buffer.map
          Prod.fst).length := (List.length_map _ _).symm
    rw [hlen, h.1]
    simp [initClientState]
  · have h := runVB_out_of_order
      ((List.range n).map (fun i => (i + 2, [0]))) (initialize_file vbInit 0) rfl
      (by
        intro p hp
        obtain ⟨i, _, rfl⟩ := List.mem_map.mp hp
        omega)
      (by
        rw [List.map_map]
        exact List.Nodup.map (fun a b hab => by simp at hab; omega) (List.nodup_range n))
      (by
        intro p _
        simp [initialize_file, vbInit])
      (by
        intro k hk
        simp [initialize_file, vbInit] at hk)
    have hlen : (runVB (initialize_file vbInit 0)
        ((List.range n).map (fun i => (i + 2, [0])))).packets.length =
        ((runVB (initialize_file vbInit 0)
          ((List.range n).map (fun i => (i + 2, [0])))).packets.map
          Prod.fst).length := (List.length_map _ _).symm
    rw [hlen, h.1]
    simp [initialize_file, vbInit]

/-- C5 counterexample: with the spec's example bound of 5, six distinct
out-of-order packets are all retained — the store reaches six entries, the
oldest-keyed entry included, and nothing records a loss (the receivers keep
no loss counter at all). -/
theorem c5_six_entries_all_retained :
    (runClient (initClientState 0)
      [(1, [0]), (2, [0]), (3, [0]), (4, [0]), (5, [0]), (6, [0])]).packets_buffer
      = [(1, [0]), (2, [0]), (3, [0]), (4, [0]), (5, [0]), (6, [0])] ∧
    (runVB (initialize_file vbInit 0)
      [(2, [0]), (3, [0]), (4, [0]), (5, [0]), (6, [0]), (7, [0])]).packets.length
      = 6 := by
  decide

/-- C9 (amended): a duplicate DATA packet whose sequence was already written
leaves output, `bytes_received` and the expected counter unchanged in both
receivers, and is a complete state no-op on the advanced `VideoBuffer`; the
basic receiver, however, additionally stores the stale payload in its
out-of-order buffer and increments `packets_received`. -/
theorem c9_duplicate_of_written_sequence (vb : VB) (st : ClientState)
    (seq seqB : Nat) (data dataB : List Nat)
    (hvb : seq < vb.next_expected_seq) (hst : seqB < st.sequence_expected) :
    (add_packet vb seq data).1 = vb ∧
    (handle_data_packet st seqB dataB).output = st.output ∧
    (handle_data_packet st seqB dataB).received_bytes = st.received_bytes ∧
    (handle_data_packet st seqB dataB).sequence_expected =
      st.sequence_expected := by
  obtain ⟨_, he, ho, hr⟩ := handle_data_packet_out_of_order st seqB dataB
    (by omega)
  refine ⟨?_, ho, hr, he⟩
  unfold add_packet
  rw [if_neg (by omega)]

/-- Witness for C9: after sequence 1 was written, feeding sequence 1 again
changes nothing the claim protects. -/
theorem c9_duplicate_of_written_sequence_witness :
    (add_packet (runVB (initialize_file vbInit 10) [(1, [65])]) 1 [66]).1 =
      runVB (initialize_file vbInit 10) [(1, [65])] ∧
    (handle_data_packet (runClient (initClientState 10) [(0, [65])])
      0 [66]).output = (runClient (initClientState 10) [(0, [65])]).output ∧
    (handle_data_packet (runClient (initClientState 10) [(0, [65])])
      0 [66]).received_bytes =
      (runClient (initClientState 10) [(0, [65])]).received_bytes ∧
    (handle_data_packet (runClient (initClientState 10) [(0, [65])])
      0 [66]).sequence_expected =
      (runClient (initClientState 10) [(0, [65])]).sequence_expected :=
  c9_duplicate_of_written_sequence
    (runVB (initialize_file vbInit 10) [(1, [65])])
    (runClient (initClientState 10) [(0, [65])])
    1 0 [66] [66] (by decide) (by decide)

/-- C9 counterexample: feeding the same DATA packet (sequence 0, payload
"A") twice is not a no-op on the basic receiver: the duplicate is stored in
the out-of-order buffer and `packets_received` is double-counted. -/
theorem c9_duplicate_changes_basic_state :
    (runClient (initClientState 10) [(0, [65]), (0, [65])]).packets_buffer =
      [(0, [65])] ∧
    (runClient (initClientState 10) [(0, [65])]).packets_buffer = [] ∧
    (runClient (initClientState 10) [(0, [65]), (0, [65])]).packets_received
      = 2 ∧
    runClient (initClientState 10) [(0, [65]), (0, [65])] ≠
      runClient (initClientState 10) [(0, [65])] := by
  decide


/-- C6: the advanced client's playback-ready signal is never emitted at all.
`_receive_stream` compares the one-character parsed packet type against the
four-character literal `'INFO'` — a comparison that can never succeed — so no
run of the packet loop from its initial state ever initializes the buffer
file: for every list of arriving datagrams the loop ends with
`file_initialized` still false, the `VideoBuffer` exactly as constructed
(`bytes_received = 0`, nothing written), and zero media-player launches. The
spec's "exactly once" fails as "never", and `bytes_received` cannot even
cross the threshold. The basic client's launched flag does bound its signal
to at most one emission per session at the `handle_data_packet` level. -/
theorem c6_playback_signal_never_emitted (l : List RecvPacket) :
    ((recvRun advInit l).file_initialized = false ∧
     (recvRun advInit l).buffer = vbInit ∧
     (recvRun advInit l).emissions = 0) ∧
    ∀ (es : Nat) (qs : List (Nat × List Nat)),
      (runClient (initClientState es) qs).emissions ≤ 1 := by
  refine ⟨?_, ?_⟩
  · obtain ⟨h1, h2, h3⟩ := recvRun_uninit l advInit rfl
    exact ⟨h1, h2, h3⟩
  · intro es qs
    rcases runClient_launch_inv qs (initClientState es) (Or.inl ⟨rfl, rfl⟩) with
      ⟨_, h⟩ | ⟨_, h⟩ <;> omega

/-- C7 (amended): each sender sends exactly one END packet, after the last
DATA packet, and sends the whole file. The basic server numbers DATA packets
from 0, so its END sequence equals the number of DATA packets sent; the
advanced server numbers DATA packets from 1, so its END sequence equals the
DATA packet count plus one. `draw i` is the `random.randint(1000, 2000)`
result for the iteration sending sequence `i`. -/
theorem c7_end_packet_after_last_data (draw : Nat → Nat) (total : Nat)
    (h : ∀ i, 1000 ≤ draw i ∧ draw i ≤ 2000) :
    ((stream_file draw total).1.countP isEndP = 1) ∧
    ((stream_file draw total).1.getLast? =
      some (SentPacket.endP ((stream_file draw total).1.countP isDataP))) ∧
    ((stream_file draw total).2 = total) ∧
    ((adv_stream_file draw total).1.countP isEndP = 1) ∧
    ((adv_stream_file draw total).1.getLast? =
      some (SentPacket.endP
        ((adv_stream_file draw total).1.countP isDataP + 1))) ∧
    ((adv_stream_file draw total).2 = total) := by
  have hdraw : ∀ i, 1 ≤ draw i := fun i => by have := (h i).1; omega
  have hseqB := streamLoopB_seq draw total 0 0 total
  have hseqA := advStreamLoop_seq draw total 1 0 total
  have hcount : ∀ l : List (Nat × Nat), ∀ e : Nat,
      ((l.map (fun p => SentPacket.dataP p.1 p.2)) ++
        [SentPacket.endP e]).countP isDataP = l.length := by
    intro l e
    rw [List.countP_append, countP_map_dataP_data]
    simp [isDataP]
  have hsf : (stream_file draw total).1 =
      (streamLoopB draw total 0 0 total).1.map
        (fun p => SentPacket.dataP p.1 p.2) ++
      [SentPacket.endP (streamLoopB draw total 0 0 total).2.1] := rfl
  have hsa : (adv_stream_file draw total).1 =
      (advStreamLoop draw total 1 0 total).1.map
        (fun p => SentPacket.dataP p.1 p.2) ++
      [SentPacket.endP (advStreamLoop draw total 1 0 total).2.1] := rfl
  refine ⟨?_, ?_, ?_, ?_, ?_, ?_⟩
  · rw [hsf, List.countP_append, countP_map_dataP]
    simp [isEndP]
  · rw [hsf, List.getLast?_concat, hcount]
    rw [show (streamLoopB draw total 0 0 total).2.1 =
      (streamLoopB draw total 0 0 total).1.length by rw [hseqB]; omega]
  · exact streamLoopB_bytes draw hdraw total 0 0 total (Nat.zero_le total)
      (by omega)
  · rw [hsa, List.countP_append, countP_map_dataP]
    simp [isEndP]
  · rw [hsa, List.getLast?_concat, hcount]
    rw [show (advStreamLoop draw total 1 0 total).2.1 =
      (advStreamLoop draw total 1 0 total).1.length + 1 by rw [hseqA]; omega]
  · exact advStreamLoop_bytes draw hdraw total 1 0 total (Nat.zero_le total)
      (by omega)

/-- Witness for C7: a 5000-byte file with every draw equal to 1000 — five
DATA packets for the basic sender (END sequence 5) and five for the advanced
sender (END sequence 6). -/
theorem c7_end_packet_after_last_data_witness :
    ((stream_file (fun _ => 1000) 5000).1.countP isEndP = 1) ∧
    ((stream_file (fun _ => 1000) 5000).1.getLast? =
      some (SentPacket.endP
        ((stream_file (fun _ => 1000) 5000).1.countP isDataP))) ∧
    ((stream_file (fun _ => 1000) 5000).2 = 5000) ∧
    ((adv_stream_file (fun _ => 1000) 5000).1.countP isEndP = 1) ∧
    ((adv_stream_file (fun _ => 1000) 5000).1.getLast? =
      some (SentPacket.endP
        ((adv_stream_file (fun _ => 1000) 5000).1.countP isDataP + 1))) ∧
    ((adv_stream_file (fun _ => 1000) 5000).2 = 5000) :=
  c7_end_packet_after_last_data (fun _ => 1000) 5000
    (fun _ => ⟨Nat.le_refl 1000, by norm_num⟩)

/-- C7 counterexample: the advanced sender streaming a 5000-byte file with
draws of 2000 sends DATA sequences 1, 2, 3 and then an END packet with
sequence 4 — not 3, the number of DATA packets sent. -/
theorem c7_adv_end_sequence_not_data_count :
    (adv_stream_file (fun _ => 2000) 5000).1 =
      [SentPacket.dataP 1 2000, SentPacket.dataP 2 2000,
        SentPacket.dataP 3 1000, SentPacket.endP 4] ∧
    (adv_stream_file (fun _ => 2000) 5000).1.getLast? ≠
      some (SentPacket.endP
        ((adv_stream_file (fun _ => 2000) 5000).1.countP isDataP)) := by
  decide

end UdpStreaming
